import Mathlib

/-!
Verification of the anomaly-detection core of the `zeroops` repository
(`services/alerting-ml-python/app/api.py` and
`services/alerting-ml-python/app/isoforest_detect.py`).

The detection pipeline is embedded shallowly:
Python floats are modelled as rationals extended with the IEEE non-finite
values, Python ints as `ℤ` (loop counters that are provably non-negative
as `ℕ`), and the FastAPI error channel as `Except HttpError`.
The IsolationForest scorer itself is third-party library code
(`sklearn`); where its behaviour decides a claim it is modelled from the
specification and clearly marked, and everywhere else it is abstracted as
an arbitrary scoring function, so the theorems quantify over it.
-/

namespace ZeroOps

/-- A Python float value as it can appear in a detection request or in a
scorer output: a finite rational or one of the IEEE non-finite values. -/
inductive PyFloat where
  | finite (q : ℚ)
  | nan
  | inf
  | ninf
deriving DecidableEq, Repr

/-- `True` exactly for finite values (what `numpy.isfinite` accepts). -/
def PyFloat.isFinite : PyFloat → Bool
  | .finite _ => true
  | _ => false

/-- One element of the `point_json` list built by `anomalies_to_json`
(`isoforest_detect.py`, dataclass `PointAnomaly`): a scored point. -/
structure PointResult where
  timestamp : String
  value : PyFloat
  score : PyFloat
  is_anomaly : Bool
deriving DecidableEq, Repr

/-- The `rules` sub-dictionary of the segment summary (`api.py`, line 57/77). -/
structure SegmentRules where
  ratio_threshold : ℚ
  streak_threshold : ℤ
deriving DecidableEq, Repr

/-- The dictionary returned by `_segment_summary` (`api.py`, lines 47-78).
The empty-input branch omits the `anomaly_ratio` and
`max_consecutive_anomaly` keys and adds a `reason` key; omitted keys are
modelled as `none`. -/
structure SegmentSummary where
  is_segment_anomaly : Bool
  reason : Option String
  anomaly_ratio : Option ℚ
  max_consecutive_anomaly : Option ℕ
  rules : SegmentRules
deriving DecidableEq, Repr

/-- The `for flag in anomaly_flags` loop of `_segment_summary`
(`api.py`, lines 63-70), carrying the `max_streak` and `current_streak`
accumulators. -/
def maxStreakGo : List Bool → ℕ → ℕ → ℕ
  | [], max_streak, _ => max_streak
  | flag :: rest, max_streak, current_streak =>
    if flag then
      maxStreakGo rest (max max_streak (current_streak + 1)) (current_streak + 1)
    else
      maxStreakGo rest max_streak 0

/-- `_segment_summary` (`api.py`, lines 47-78).  `sum(anomaly_flags)` over
Python booleans counts the `True` entries; float division and float/int
comparisons are modelled exactly over `ℚ` and `ℤ`. -/
def segment_summary (point_results : List PointResult)
    (ratio_threshold : ℚ) (streak_threshold : ℤ) : SegmentSummary :=
  let total := point_results.length
  if total = 0 then
    ⟨false, some "empty", none, none, ⟨ratio_threshold, streak_threshold⟩⟩
  else
    let anomaly_flags := point_results.map (fun p => p.is_anomaly)
    let ratio : ℚ := ((anomaly_flags.count true : ℕ) : ℚ) / (total : ℚ)
    let max_streak := maxStreakGo anomaly_flags 0 0
    let is_anom := decide (ratio_threshold ≤ ratio) ||
      decide (streak_threshold ≤ (max_streak : ℤ))
    ⟨is_anom, none, some ratio, some max_streak, ⟨ratio_threshold, streak_threshold⟩⟩

/-- An element of the list returned by `_extract_anomaly_intervals`
(`api.py`, line 98): an inclusive timestamp interval.  The Python dict key
`end` is a Lean keyword, hence the guillemets. -/
structure AnomalyInterval where
  start : String
  «end» : String
deriving DecidableEq, Repr

/-- The scan of `_extract_anomaly_intervals` (`api.py`, lines 84-94),
returning the `(start_idx, end_idx)` index pairs of the maximal runs of
flagged points.  The inner `while i < n and flag(i)` loop that consumes a
run is rendered by `takeWhile`/`dropWhile` on the list suffix: on entering
a run at absolute index `i`, the run extends over the current point plus
the longest flagged prefix of the remainder, `end_idx` is the index of its
last point, and the outer loop resumes right after it. -/
def extractAux : List PointResult → ℕ → List (ℕ × ℕ)
  | [], _ => []
  | p :: rest, i =>
    if p.is_anomaly then
      (i, i + (rest.takeWhile (fun q => q.is_anomaly)).length) ::
        extractAux (rest.dropWhile (fun q => q.is_anomaly))
          (i + (rest.takeWhile (fun q => q.is_anomaly)).length + 1)
    else
      extractAux rest (i + 1)
termination_by l _ => l.length
decreasing_by
  · simp only [List.length_cons]
    exact Nat.lt_succ_of_le ((List.dropWhile_sublist _).length_le)
  · simp

/-- The index pairs `(start_idx, end_idx)` produced by the scan of
`_extract_anomaly_intervals`, starting at `i = 0` as in the source. -/
def extractIdx (pts : List PointResult) : List (ℕ × ℕ) :=
  extractAux pts 0

/-- `point_results[j]["timestamp"]` for an in-range index `j` (all indices
produced by the scan are in range, which is proved below). -/
def tsAt (pts : List PointResult) (j : ℕ) : String :=
  (pts[j]?.map (fun p => p.timestamp)).getD ""

/-- `_extract_anomaly_intervals` (`api.py`, lines 81-100): the timestamp
intervals of the maximal runs of flagged points. -/
def extract_anomaly_intervals (pts : List PointResult) : List AnomalyInterval :=
  (extractIdx pts).map (fun se => ⟨tsAt pts se.1, tsAt pts se.2⟩)

/-- The `is_anomaly` flag of the point at index `j`, `false` when `j` is
out of range (mirrors `bool(p.get("is_anomaly"))` on `point_results[j]`). -/
def flagIdx (pts : List PointResult) (j : ℕ) : Bool :=
  (pts[j]?.map (fun p => p.is_anomaly)).getD false

/-- Number of flagged points, as the spec words it: the count of points
with `is_anomaly` true. -/
def countFlagged (pts : List PointResult) : ℕ :=
  (pts.map (fun p => p.is_anomaly)).count true

/-- The spec formula for the anomaly ratio: `(#flagged) / total`. -/
def anomalyRatio (pts : List PointResult) : ℚ :=
  (countFlagged pts : ℚ) / (pts.length : ℚ)

/-- The longest streak value computed by the scan, as a standalone
function of the point list. -/
def maxConsecutive (pts : List PointResult) : ℕ :=
  maxStreakGo (pts.map (fun p => p.is_anomaly)) 0 0

/-- `[s, e]` is a maximal run of flagged points: non-empty, in range,
entirely flagged, and not extendable on either side (a boundary index that
is out of range has `flagIdx = false`, so the two maximality conjuncts
also cover runs touching the ends of the list). -/
def IsMaxRun (pts : List PointResult) (s e : ℕ) : Prop :=
  s ≤ e ∧ e < pts.length ∧
    (∀ j, s ≤ j → j ≤ e → flagIdx pts j = true) ∧
    (s = 0 ∨ flagIdx pts (s - 1) = false) ∧
    flagIdx pts (e + 1) = false

/-- Pydantic model `DataPoint` (`api.py`, lines 23-25). -/
structure DataPoint where
  timestamp : String
  value : PyFloat
deriving DecidableEq, Repr

/-- Pydantic model `Metadata` (`api.py`, lines 17-20). -/
structure Metadata where
  alert_name : Option String
  severity : Option String
  labels : List (String × String)
deriving DecidableEq, Repr

/-- Pydantic model `DetectRequest` (`api.py`, lines 28-34). -/
structure DetectRequest where
  metadata : Option Metadata
  data : List DataPoint
  contamination : ℚ
  random_state : ℤ
  ratio_threshold : ℚ
  streak_threshold : ℤ
deriving DecidableEq, Repr

/-- Pydantic model `Anomaly` (`api.py`, lines 37-39). -/
structure Anomaly where
  start : String
  «end» : String
deriving DecidableEq, Repr

/-- Pydantic model `DetectResponse` (`api.py`, lines 42-44). -/
structure DetectResponse where
  metadata : Option Metadata
  anomalies : List Anomaly
deriving DecidableEq, Repr

/-- A FastAPI `HTTPException`: an HTTP status code with a detail string. -/
structure HttpError where
  status : ℕ
  detail : String
deriving DecidableEq, Repr

/-- `df.sort_values("timestamp")` (`api.py`, line 118): sort the data
points by their (string, hence lexicographically compared) timestamps. -/
def sortByTimestamp (data : List DataPoint) : List DataPoint :=
  data.mergeSort (fun a b => decide (a.timestamp ≤ b.timestamp))

/-- Modelled from the spec: the input validation performed inside
sklearn's `IsolationForest.fit` (library code, not part of this
repository, called by `detect_point_anomalies` in `isoforest_detect.py`,
lines 35-56).  Per the spec it raises a `ValueError` when `contamination`
lies outside `(0, 0.5]`, when the input contains NaN or infinity, or when
it is fitted on zero samples; `some msg` models the raised exception. -/
def isoforestError (values : List PyFloat) (contamination : ℚ) : Option String :=
  if ¬ (0 < contamination ∧ contamination ≤ 1/2) then
    some "contamination must be in (0.0, 0.5]"
  else if values.any (fun v => ! v.isFinite) then
    some "input contains NaN or infinity"
  else if values.isEmpty then
    some "found array with 0 sample(s)"
  else
    none

/-- The `detect` handler (`api.py`, lines 111-135).  `score` abstracts
`run_isolation_forest` on a validated frame (its output on valid input is
decided by the sklearn library, not by this repository); every theorem
below quantifies over it.  `pd.DataFrame` built from an empty list has no
columns, so the `issubset` check on line 115 fails exactly when `data` is
empty and the handler raises a 400 `HTTPException` there; any exception
escaping from the scorer is converted by the final handler (lines 134-135)
into a 500 `HTTPException`.  The Python locals `df`, `point_json`, `seg`
and `intervals` are inlined. -/
def detect (score : List DataPoint → ℚ → ℤ → List PointResult)
    (req : DetectRequest) : Except HttpError DetectResponse :=
  if req.data.isEmpty then
    .error ⟨400, "data points must include timestamp and value"⟩
  else
    match isoforestError ((sortByTimestamp req.data).map (fun p => p.value))
        req.contamination with
    | some msg => .error ⟨500, "detection failed: " ++ msg⟩
    | none =>
      .ok ⟨req.metadata,
        (if (segment_summary
              (score (sortByTimestamp req.data) req.contamination req.random_state)
              req.ratio_threshold req.streak_threshold).is_segment_anomaly then
            extract_anomaly_intervals
              (score (sortByTimestamp req.data) req.contamination req.random_state)
          else []).map (fun iv => ⟨iv.start, iv.«end»⟩)⟩

/-! ### Lemmas about the streak scan -/

theorem maxStreakGo_state_le : ∀ (l : List Bool) (m c : ℕ), m ≤ maxStreakGo l m c := by
  intro l
  induction l with
  | nil => intro m c; exact Nat.le_refl m
  | cons f rest ih =>
    intro m c
    by_cases hf : f = true
    · simpa [maxStreakGo, hf] using
        Nat.le_trans (Nat.le_max_left m (c + 1)) (ih (max m (c + 1)) (c + 1))
    · simpa [maxStreakGo, Bool.eq_false_iff.mpr hf] using ih m 0

theorem maxStreakGo_le : ∀ (l : List Bool) (m c : ℕ),
    maxStreakGo l m c ≤ max m (c + l.length) := by
  intro l
  induction l with
  | nil => intro m c; simp [maxStreakGo]
  | cons f rest ih =>
    intro m c
    by_cases hf : f = true
    · have h1 := ih (max m (c + 1)) (c + 1)
      have h2 : max (max m (c + 1)) (c + 1 + rest.length) ≤
          max m (c + (rest.length + 1)) := by
        rw [Nat.max_le, Nat.max_le]
        refine ⟨⟨Nat.le_max_left _ _, ?_⟩, ?_⟩
        · exact Nat.le_trans (by omega) (Nat.le_max_right m (c + (rest.length + 1)))
        · exact Nat.le_trans (by omega) (Nat.le_max_right m (c + (rest.length + 1)))
      simpa [maxStreakGo, hf] using Nat.le_trans h1 h2
    · have h1 := ih m 0
      have h2 : max m (0 + rest.length) ≤ max m (c + (rest.length + 1)) := by
        rw [Nat.max_le]
        exact ⟨Nat.le_max_left _ _,
          Nat.le_trans (by omega) (Nat.le_max_right m (c + (rest.length + 1)))⟩
      simpa [maxStreakGo, Bool.eq_false_iff.mpr hf] using Nat.le_trans h1 h2

theorem le_maxStreakGo_of_true_take : ∀ (l : List Bool) (k m c : ℕ), c ≤ m →
    (∀ j, j < k → l[j]?.getD false = true) →
    max m (c + k) ≤ maxStreakGo l m c := by
  intro l
  induction l with
  | nil =>
    intro k m c hcm hrun
    match k with
    | 0 => simp [maxStreakGo, Nat.max_eq_left hcm]
    | k + 1 => simpa using hrun 0 (by omega)
  | cons f rest ih =>
    intro k m c hcm hrun
    match k with
    | 0 =>
      rw [Nat.add_zero, Nat.max_eq_left hcm]
      exact maxStreakGo_state_le _ m c
    | k + 1 =>
      have hf : f = true := by simpa using hrun 0 (by omega)
      have hrest : ∀ j, j < k → rest[j]?.getD false = true := by
        intro j hj
        simpa using hrun (j + 1) (by omega)
      have h1 := ih k (max m (c + 1)) (c + 1) (Nat.le_max_right _ _) hrest
      have h2 : max m (c + (k + 1)) ≤ max (max m (c + 1)) (c + 1 + k) := by
        rw [Nat.max_le]
        exact ⟨Nat.le_trans (Nat.le_max_left _ _) (Nat.le_max_left _ _),
          Nat.le_trans (by omega) (Nat.le_max_right _ _)⟩
      simpa [maxStreakGo, hf] using Nat.le_trans h2 h1

theorem le_maxStreakGo_of_run : ∀ (l : List Bool) (s k m c : ℕ), c ≤ m →
    (∀ j, s ≤ j → j < s + k → l[j]?.getD false = true) →
    k ≤ maxStreakGo l m c := by
  intro l
  induction l with
  | nil =>
    intro s k m c _ hrun
    match k with
    | 0 => exact Nat.zero_le _
    | k + 1 => simpa using hrun s (Nat.le_refl s) (by omega)
  | cons f rest ih =>
    intro s k m c hcm hrun
    match s with
    | 0 =>
      have h1 := le_maxStreakGo_of_true_take (f :: rest) k m c hcm
        (fun j hj => hrun j (Nat.zero_le j) (by omega))
      exact Nat.le_trans (Nat.le_trans (by omega) (Nat.le_max_right m (c + k))) h1
    | s + 1 =>
      have hrest : ∀ j, s ≤ j → j < s + k → rest[j]?.getD false = true := by
        intro j h1 h2
        simpa using hrun (j + 1) (by omega) (by omega)
      by_cases hf : f = true
      · simpa [maxStreakGo, hf] using
          ih s k (max m (c + 1)) (c + 1) (Nat.le_max_right _ _) hrest
      · simpa [maxStreakGo, Bool.eq_false_iff.mpr hf] using
          ih s k m 0 (Nat.zero_le m) hrest

/-! ### Unfolding the segment summary on non-empty input -/

theorem segment_summary_of_ne_nil (pts : List PointResult) (rt : ℚ) (st : ℤ)
    (h : pts ≠ []) :
    segment_summary pts rt st =
      ⟨decide (rt ≤ anomalyRatio pts) || decide (st ≤ (maxConsecutive pts : ℤ)),
        none, some (anomalyRatio pts), some (maxConsecutive pts), ⟨rt, st⟩⟩ := by
  have hlen : pts.length ≠ 0 := by simpa [List.length_eq_zero] using h
  simp [segment_summary, hlen, anomalyRatio, maxConsecutive, countFlagged]

theorem countFlagged_le_length (pts : List PointResult) :
    countFlagged pts ≤ pts.length := by
  have h := List.count_le_length (a := true) (l := pts.map (fun p => p.is_anomaly))
  simpa [countFlagged] using h

theorem flagIdx_eq_flags_getD (pts : List PointResult) (j : ℕ) :
    flagIdx pts j = ((pts.map (fun p => p.is_anomaly))[j]?).getD false := by
  simp [flagIdx, List.getElem?_map]

theorem le_maxConsecutive_of_run (pts : List PointResult) (s k : ℕ)
    (hrun : ∀ j, s ≤ j → j < s + k → flagIdx pts j = true) :
    k ≤ maxConsecutive pts := by
  refine le_maxStreakGo_of_run _ s k 0 0 (Nat.le_refl 0) ?_
  intro j h1 h2
  rw [← flagIdx_eq_flags_getD]
  exact hrun j h1 h2

/-! ### Lemmas about flags at indices and the takeWhile/dropWhile split -/

theorem flagIdx_nil (j : ℕ) : flagIdx [] j = false := by
  simp [flagIdx]

theorem flagIdx_cons_zero (p : PointResult) (rest : List PointResult) :
    flagIdx (p :: rest) 0 = p.is_anomaly := by
  simp [flagIdx]

theorem flagIdx_cons_succ (p : PointResult) (rest : List PointResult) (j : ℕ) :
    flagIdx (p :: rest) (j + 1) = flagIdx rest j := by
  simp [flagIdx]

theorem flagIdx_of_le_length (l : List PointResult) (j : ℕ)
    (h : l.length ≤ j) : flagIdx l j = false := by
  simp [flagIdx, List.getElem?_eq_none h]

theorem flagIdx_eq_true_iff (l : List PointResult) (j : ℕ) :
    flagIdx l j = true ↔ ∃ p, l[j]? = some p ∧ p.is_anomaly = true := by
  rw [flagIdx]
  cases h : l[j]? with
  | none => simp
  | some p => simp

theorem flagIdx_takeWhile_lt :
    ∀ (l : List PointResult) (j : ℕ),
      j < (l.takeWhile (fun q => q.is_anomaly)).length → flagIdx l j = true := by
  intro l
  induction l with
  | nil => intro j hj; simp [List.takeWhile] at hj
  | cons p rest ih =>
    intro j hj
    by_cases hp : p.is_anomaly
    · match j with
      | 0 => simpa [flagIdx_cons_zero] using hp
      | j + 1 =>
        rw [flagIdx_cons_succ]
        refine ih j ?_
        rw [List.takeWhile_cons, if_pos hp] at hj
        simpa using hj
    · rw [List.takeWhile_cons, if_neg hp] at hj
      simp at hj

theorem flagIdx_takeWhile_length :
    ∀ l : List PointResult,
      flagIdx l ((l.takeWhile (fun q => q.is_anomaly)).length) = false := by
  intro l
  induction l with
  | nil => simp [flagIdx]
  | cons p rest ih =>
    by_cases hp : p.is_anomaly
    · rw [List.takeWhile_cons, if_pos hp]
      simpa [flagIdx_cons_succ] using ih
    · rw [List.takeWhile_cons, if_neg hp]
      simpa [flagIdx_cons_zero] using Bool.eq_false_iff.mpr hp

theorem flagIdx_dropWhile :
    ∀ (l : List PointResult) (j : ℕ),
      flagIdx (l.dropWhile (fun q => q.is_anomaly)) j =
        flagIdx l ((l.takeWhile (fun q => q.is_anomaly)).length + j) := by
  intro l
  induction l with
  | nil => intro j; simp [List.dropWhile, List.takeWhile, flagIdx]
  | cons p rest ih =>
    intro j
    by_cases hp : p.is_anomaly
    · rw [List.dropWhile_cons_of_pos (by simpa using hp),
        List.takeWhile_cons, if_pos hp]
      rw [ih j]
      rw [List.length_cons]
      rw [show (rest.takeWhile (fun q => q.is_anomaly)).length + 1 + j =
        ((rest.takeWhile (fun q => q.is_anomaly)).length + j) + 1 by omega]
      rw [flagIdx_cons_succ]
    · rw [List.dropWhile_cons_of_neg (by simpa using hp),
        List.takeWhile_cons, if_neg hp]
      simp

theorem takeWhile_add_dropWhile_length (l : List PointResult) :
    (l.takeWhile (fun q => q.is_anomaly)).length +
      (l.dropWhile (fun q => q.is_anomaly)).length = l.length := by
  rw [← List.length_append, List.takeWhile_append_dropWhile]

/-! ### The scan at offset `i` is the scan at offset `0`, shifted -/

theorem map_shift_map_shift (L : List (ℕ × ℕ)) (a b : ℕ) :
    (L.map (fun se => (se.1 + b, se.2 + b))).map (fun se => (se.1 + a, se.2 + a)) =
      L.map (fun se => (se.1 + (b + a), se.2 + (b + a))) := by
  induction L with
  | nil => rfl
  | cons x L ih => simp [ih, Nat.add_assoc]

theorem extractAux_shift :
    ∀ (n : ℕ) (l : List PointResult), l.length ≤ n → ∀ i,
      extractAux l i = (extractAux l 0).map (fun se => (se.1 + i, se.2 + i)) := by
  intro n
  induction n with
  | zero =>
    intro l hl i
    have hnil : l = [] := List.length_eq_zero.mp (Nat.le_zero.mp hl)
    subst hnil
    simp [extractAux]
  | succ n ih =>
    intro l hl i
    match l with
    | [] => simp [extractAux]
    | p :: rest =>
      have hrest : rest.length ≤ n := by
        simp only [List.length_cons] at hl; omega
      have hsub : List.Sublist (rest.dropWhile (fun q => q.is_anomaly)) rest :=
        List.dropWhile_sublist (fun (q : PointResult) => q.is_anomaly)
      have hdw : (rest.dropWhile (fun q => q.is_anomaly)).length ≤ n :=
        le_trans hsub.length_le hrest
      by_cases hp : p.is_anomaly
      · rw [extractAux, extractAux]
        rw [if_pos hp, if_pos hp]
        rw [ih _ hdw (i + (rest.takeWhile (fun q => q.is_anomaly)).length + 1)]
        rw [ih _ hdw (0 + (rest.takeWhile (fun q => q.is_anomaly)).length + 1)]
        rw [List.map_cons, map_shift_map_shift]
        refine congrArg₂ List.cons ?_ ?_
        · simp [Prod.ext_iff]
          omega
        · congr 1
          funext se
          simp only [Prod.mk.injEq]
          omega
      · rw [extractAux, extractAux]
        rw [if_neg hp, if_neg hp]
        rw [ih _ hrest (i + 1), ih _ hrest (0 + 1), map_shift_map_shift]
        congr 1
        funext se
        simp only [Prod.mk.injEq]
        omega

theorem extractAux_zero_cons_pos (p : PointResult) (rest : List PointResult)
    (hp : p.is_anomaly = true) :
    extractAux (p :: rest) 0 =
      (0, (rest.takeWhile (fun q => q.is_anomaly)).length) ::
        (extractAux (rest.dropWhile (fun q => q.is_anomaly)) 0).map
          (fun se => (se.1 + ((rest.takeWhile (fun q => q.is_anomaly)).length + 1),
            se.2 + ((rest.takeWhile (fun q => q.is_anomaly)).length + 1))) := by
  rw [extractAux, if_pos hp]
  rw [extractAux_shift (rest.dropWhile (fun q => q.is_anomaly)).length _ (Nat.le_refl _)]
  refine congrArg₂ List.cons ?_ ?_
  · simp
  · congr 1
    funext se
    simp only [Prod.mk.injEq]
    omega

theorem extractAux_zero_cons_neg (p : PointResult) (rest : List PointResult)
    (hp : ¬ p.is_anomaly = true) :
    extractAux (p :: rest) 0 =
      (extractAux rest 0).map (fun se => (se.1 + 1, se.2 + 1)) := by
  rw [extractAux, if_neg hp, Nat.zero_add]
  exact extractAux_shift rest.length rest (Nat.le_refl _) 1

theorem flagIdx_cons_dropWhile (p : PointResult) (rest : List PointResult) (j : ℕ) :
    flagIdx (p :: rest)
        ((rest.takeWhile (fun q => q.is_anomaly)).length + 1 + j) =
      flagIdx (rest.dropWhile (fun q => q.is_anomaly)) j := by
  rw [show (rest.takeWhile (fun q => q.is_anomaly)).length + 1 + j =
      ((rest.takeWhile (fun q => q.is_anomaly)).length + j) + 1 by omega]
  rw [flagIdx_cons_succ, flagIdx_dropWhile]

theorem dropWhile_head_not_flagged (rest : List PointResult) :
    flagIdx (rest.dropWhile (fun q => q.is_anomaly)) 0 = false := by
  rw [flagIdx_dropWhile, Nat.add_zero]
  exact flagIdx_takeWhile_length rest

/-! ### Every emitted index pair is a maximal run -/

theorem isMaxRun_of_mem_extractAux :
    ∀ (n : ℕ) (l : List PointResult), l.length ≤ n →
      ∀ s e, (s, e) ∈ extractAux l 0 → IsMaxRun l s e := by
  intro n
  induction n with
  | zero =>
    intro l hl s e hmem
    have hnil : l = [] := List.length_eq_zero.mp (Nat.le_zero.mp hl)
    subst hnil
    simp [extractAux] at hmem
  | succ n ih =>
    intro l hl s e hmem
    match l with
    | [] => simp [extractAux] at hmem
    | p :: rest =>
      have hrest : rest.length ≤ n := by
        simp only [List.length_cons] at hl; omega
      have hsub : List.Sublist (rest.dropWhile (fun q => q.is_anomaly)) rest :=
        List.dropWhile_sublist (fun (q : PointResult) => q.is_anomaly)
      have hdwlen : (rest.dropWhile (fun q => q.is_anomaly)).length ≤ n :=
        le_trans hsub.length_le hrest
      have hsubt : List.Sublist (rest.takeWhile (fun q => q.is_anomaly)) rest :=
        List.takeWhile_sublist (fun (q : PointResult) => q.is_anomaly)
      have hklen : (rest.takeWhile (fun q => q.is_anomaly)).length ≤ rest.length :=
        hsubt.length_le
      have hsplit : (rest.takeWhile (fun q => q.is_anomaly)).length +
          (rest.dropWhile (fun q => q.is_anomaly)).length = rest.length :=
        takeWhile_add_dropWhile_length rest
      by_cases hp : p.is_anomaly
      · rw [extractAux_zero_cons_pos p rest hp] at hmem
        rcases List.mem_cons.mp hmem with hhead | htail
        · rcases Prod.mk.injEq .. ▸ hhead with ⟨hs, he⟩
          subst hs
          subst he
          refine ⟨Nat.zero_le _, ?_, ?_, Or.inl rfl, ?_⟩
          · simp only [List.length_cons]; omega
          · intro j _ hj2
            match j with
            | 0 => simpa [flagIdx_cons_zero] using hp
            | j + 1 =>
              rw [flagIdx_cons_succ]
              exact flagIdx_takeWhile_lt rest j (by omega)
          · rw [flagIdx_cons_succ]
            exact flagIdx_takeWhile_length rest
        · rcases List.mem_map.mp htail with ⟨⟨s2, e2⟩, hmem2, heq⟩
          have hs : s = s2 + ((rest.takeWhile (fun q => q.is_anomaly)).length + 1) := by
            have h := congrArg Prod.fst heq
            simpa using h.symm
          have he : e = e2 + ((rest.takeWhile (fun q => q.is_anomaly)).length + 1) := by
            have h := congrArg Prod.snd heq
            simpa using h.symm
          obtain ⟨h21, h22, h23, h24, h25⟩ :=
            ih (rest.dropWhile (fun q => q.is_anomaly)) hdwlen s2 e2 hmem2
          have hs2pos : s2 ≠ 0 := by
            intro h0
            have hf : flagIdx (rest.dropWhile (fun q => q.is_anomaly)) s2 = true :=
              h23 s2 (Nat.le_refl _) h21
            rw [h0, dropWhile_head_not_flagged] at hf
            exact Bool.false_ne_true hf
          refine ⟨by omega, ?_, ?_, ?_, ?_⟩
          · simp only [List.length_cons]; omega
          · intro j hj1 hj2
            have hj : j = (rest.takeWhile (fun q => q.is_anomaly)).length + 1 +
                (j - ((rest.takeWhile (fun q => q.is_anomaly)).length + 1)) := by
              omega
            rw [hj, flagIdx_cons_dropWhile]
            exact h23 _ (by omega) (by omega)
          · refine Or.inr ?_
            have hs1 : s - 1 = (rest.takeWhile (fun q => q.is_anomaly)).length + 1 +
                (s2 - 1) := by omega
            rw [hs1, flagIdx_cons_dropWhile]
            rcases h24 with h0 | h24
            · exact absurd h0 hs2pos
            · exact h24
          · have he1 : e + 1 = (rest.takeWhile (fun q => q.is_anomaly)).length + 1 +
                (e2 + 1) := by omega
            rw [he1, flagIdx_cons_dropWhile]
            exact h25
      · rw [extractAux_zero_cons_neg p rest hp] at hmem
        rcases List.mem_map.mp hmem with ⟨⟨s2, e2⟩, hmem2, heq⟩
        have hs : s = s2 + 1 := by
          have h := congrArg Prod.fst heq
          simpa using h.symm
        have he : e = e2 + 1 := by
          have h := congrArg Prod.snd heq
          simpa using h.symm
        obtain ⟨h21, h22, h23, h24, h25⟩ := ih rest hrest s2 e2 hmem2
        refine ⟨by omega, ?_, ?_, ?_, ?_⟩
        · simp only [List.length_cons]; omega
        · intro j hj1 hj2
          have hj : j = (j - 1) + 1 := by omega
          rw [hj, flagIdx_cons_succ]
          exact h23 _ (by omega) (by omega)
        · refine Or.inr ?_
          have hs1 : s - 1 = s2 := by omega
          rw [hs1]
          rcases Nat.eq_zero_or_pos s2 with h0 | hpos
          · subst h0
            simpa [flagIdx_cons_zero] using Bool.eq_false_iff.mpr hp
          · have hs2 : s2 = (s2 - 1) + 1 := by omega
            rw [hs2, flagIdx_cons_succ]
            rcases h24 with h0 | h24
            · exact absurd h0 (by omega)
            · exact h24
        · have he1 : e + 1 = (e2 + 1) + 1 := by omega
          rw [he1, flagIdx_cons_succ]
          exact h25

/-! ### Every flagged index is covered, and runs are ordered with gaps -/

theorem cover_of_flagIdx_extractAux :
    ∀ (n : ℕ) (l : List PointResult), l.length ≤ n →
      ∀ j, flagIdx l j = true →
        ∃ se, se ∈ extractAux l 0 ∧ se.1 ≤ j ∧ j ≤ se.2 := by
  intro n
  induction n with
  | zero =>
    intro l hl j hj
    have hnil : l = [] := List.length_eq_zero.mp (Nat.le_zero.mp hl)
    subst hnil
    rw [flagIdx_nil] at hj
    exact absurd hj Bool.false_ne_true
  | succ n ih =>
    intro l hl j hj
    match l with
    | [] =>
      rw [flagIdx_nil] at hj
      exact absurd hj Bool.false_ne_true
    | p :: rest =>
      have hrest : rest.length ≤ n := by
        simp only [List.length_cons] at hl; omega
      have hsub : List.Sublist (rest.dropWhile (fun q => q.is_anomaly)) rest :=
        List.dropWhile_sublist (fun (q : PointResult) => q.is_anomaly)
      have hdwlen : (rest.dropWhile (fun q => q.is_anomaly)).length ≤ n :=
        le_trans hsub.length_le hrest
      by_cases hp : p.is_anomaly
      · rw [extractAux_zero_cons_pos p rest hp]
        by_cases hjk : j ≤ (rest.takeWhile (fun q => q.is_anomaly)).length
        · exact ⟨(0, (rest.takeWhile (fun q => q.is_anomaly)).length),
            List.mem_cons_self _ _, Nat.zero_le _, hjk⟩
        · have hj2 : flagIdx (rest.dropWhile (fun q => q.is_anomaly))
              (j - ((rest.takeWhile (fun q => q.is_anomaly)).length + 1)) = true := by
            rw [← flagIdx_cons_dropWhile p rest]
            rw [show (rest.takeWhile (fun q => q.is_anomaly)).length + 1 +
                (j - ((rest.takeWhile (fun q => q.is_anomaly)).length + 1)) = j by omega]
            exact hj
          rcases ih (rest.dropWhile (fun q => q.is_anomaly)) hdwlen _ hj2 with
            ⟨⟨s2, e2⟩, hmem2, hc1, hc2⟩
          refine ⟨(s2 + ((rest.takeWhile (fun q => q.is_anomaly)).length + 1),
            e2 + ((rest.takeWhile (fun q => q.is_anomaly)).length + 1)), ?_, by omega, by omega⟩
          exact List.mem_cons_of_mem _ (List.mem_map.mpr ⟨(s2, e2), hmem2, rfl⟩)
      · rw [extractAux_zero_cons_neg p rest hp]
        match j with
        | 0 =>
          rw [flagIdx_cons_zero] at hj
          exact absurd hj hp
        | j + 1 =>
          rw [flagIdx_cons_succ] at hj
          rcases ih rest hrest j hj with ⟨⟨s2, e2⟩, hmem2, hc1, hc2⟩
          exact ⟨(s2 + 1, e2 + 1), List.mem_map.mpr ⟨(s2, e2), hmem2, rfl⟩,
            by omega, by omega⟩

theorem pairwise_gap_extractAux :
    ∀ (n : ℕ) (l : List PointResult), l.length ≤ n →
      List.Pairwise (fun a b : ℕ × ℕ => a.2 + 2 ≤ b.1) (extractAux l 0) := by
  intro n
  induction n with
  | zero =>
    intro l hl
    have hnil : l = [] := List.length_eq_zero.mp (Nat.le_zero.mp hl)
    subst hnil
    simp [extractAux]
  | succ n ih =>
    intro l hl
    match l with
    | [] => simp [extractAux]
    | p :: rest =>
      have hrest : rest.length ≤ n := by
        simp only [List.length_cons] at hl; omega
      have hsub : List.Sublist (rest.dropWhile (fun q => q.is_anomaly)) rest :=
        List.dropWhile_sublist (fun (q : PointResult) => q.is_anomaly)
      have hdwlen : (rest.dropWhile (fun q => q.is_anomaly)).length ≤ n :=
        le_trans hsub.length_le hrest
      by_cases hp : p.is_anomaly
      · rw [extractAux_zero_cons_pos p rest hp]
        rw [List.pairwise_cons]
        constructor
        · intro b hb
          rcases List.mem_map.mp hb with ⟨⟨s2, e2⟩, hmem2, heq⟩
          obtain ⟨h21, h22, h23, h24, h25⟩ :=
            isMaxRun_of_mem_extractAux n _ hdwlen s2 e2 hmem2
          have hs2pos : s2 ≠ 0 := by
            intro h0
            have hf : flagIdx (rest.dropWhile (fun q => q.is_anomaly)) s2 = true :=
              h23 s2 (Nat.le_refl _) h21
            rw [h0, dropWhile_head_not_flagged] at hf
            exact Bool.false_ne_true hf
          have hb1 : b.1 = s2 + ((rest.takeWhile (fun q => q.is_anomaly)).length + 1) := by
            have h := congrArg Prod.fst heq
            simpa using h.symm
          show (rest.takeWhile (fun q => q.is_anomaly)).length + 2 ≤ b.1
          omega
        · rw [List.pairwise_map]
          refine List.Pairwise.imp ?_ (ih _ hdwlen)
          intro a b hab
          show a.2 + ((rest.takeWhile (fun q => q.is_anomaly)).length + 1) + 2 ≤
            b.1 + ((rest.takeWhile (fun q => q.is_anomaly)).length + 1)
          omega
      · rw [extractAux_zero_cons_neg p rest hp]
        rw [List.pairwise_map]
        refine List.Pairwise.imp ?_ (ih rest hrest)
        intro a b hab
        show a.2 + 1 + 2 ≤ b.1 + 1
        omega

/-! ### Maximal runs are unique on overlap, and characterize the scan -/

theorem isMaxRun_eq_of_overlap (pts : List PointResult) (s e s2 e2 j : ℕ)
    (h1 : IsMaxRun pts s e) (h2 : IsMaxRun pts s2 e2)
    (hj1 : s ≤ j) (hj2 : j ≤ e) (hj3 : s2 ≤ j) (hj4 : j ≤ e2) :
    s = s2 ∧ e = e2 := by
  obtain ⟨h11, h12, h13, h14, h15⟩ := h1
  obtain ⟨h21, h22, h23, h24, h25⟩ := h2
  have hss : s = s2 := by
    rcases Nat.lt_trichotomy s s2 with hlt | heq | hgt
    · exfalso
      have hflag : flagIdx pts (s2 - 1) = true := h13 _ (by omega) (by omega)
      rcases h24 with h0 | hfalse
      · omega
      · rw [hfalse] at hflag
        exact Bool.false_ne_true hflag
    · exact heq
    · exfalso
      have hflag : flagIdx pts (s - 1) = true := h23 _ (by omega) (by omega)
      rcases h14 with h0 | hfalse
      · omega
      · rw [hfalse] at hflag
        exact Bool.false_ne_true hflag
  refine ⟨hss, ?_⟩
  rcases Nat.lt_trichotomy e e2 with hlt | heq | hgt
  · exfalso
    have hflag : flagIdx pts (e + 1) = true := h23 _ (by omega) (by omega)
    rw [h15] at hflag
    exact Bool.false_ne_true hflag
  · exact heq
  · exfalso
    have hflag : flagIdx pts (e2 + 1) = true := h13 _ (by omega) (by omega)
    rw [h25] at hflag
    exact Bool.false_ne_true hflag

theorem mem_extractIdx_iff_isMaxRun (pts : List PointResult) (s e : ℕ) :
    (s, e) ∈ extractIdx pts ↔ IsMaxRun pts s e := by
  constructor
  · exact isMaxRun_of_mem_extractAux pts.length pts (Nat.le_refl _) s e
  · intro h
    obtain ⟨h1, h2, h3, h4, h5⟩ := h
    have hflag : flagIdx pts s = true := h3 s (Nat.le_refl _) h1
    rcases cover_of_flagIdx_extractAux pts.length pts (Nat.le_refl _) s hflag with
      ⟨⟨s2, e2⟩, hmem, hc1, hc2⟩
    have hrun2 : IsMaxRun pts s2 e2 :=
      isMaxRun_of_mem_extractAux pts.length pts (Nat.le_refl _) s2 e2 hmem
    obtain ⟨hss, hee⟩ := isMaxRun_eq_of_overlap pts s2 e2 s e s
      hrun2 ⟨h1, h2, h3, h4, h5⟩ hc1 hc2 (Nat.le_refl _) h1
    rw [← hss, ← hee]
    exact hmem

theorem flagged_point_at (pts : List PointResult) (j : ℕ)
    (h : flagIdx pts j = true) :
    ∃ p, p ∈ pts ∧ p.is_anomaly = true ∧ tsAt pts j = p.timestamp := by
  rcases (flagIdx_eq_true_iff pts j).mp h with ⟨p, hsome, hflag⟩
  exact ⟨p, List.getElem?_mem hsome, hflag, by simp [tsAt, hsome]⟩

/-- The concrete eleven-point sequence of the spec's extractor test:
flags `[F,F,T,T,F,T,F,F,T,T,T]` with timestamps `t0..t10`. -/
def exC2 : List PointResult :=
  [⟨"t0", .finite 0, .finite 0, false⟩, ⟨"t1", .finite 0, .finite 0, false⟩,
   ⟨"t2", .finite 0, .finite 0, true⟩, ⟨"t3", .finite 0, .finite 0, true⟩,
   ⟨"t4", .finite 0, .finite 0, false⟩, ⟨"t5", .finite 0, .finite 0, true⟩,
   ⟨"t6", .finite 0, .finite 0, false⟩, ⟨"t7", .finite 0, .finite 0, false⟩,
   ⟨"t8", .finite 0, .finite 0, true⟩, ⟨"t9", .finite 0, .finite 0, true⟩,
   ⟨"t10", .finite 0, .finite 0, true⟩]

/-- Claim C2: for every sequence of PointResults the Interval Extractor
returns one interval per maximal run of consecutive flagged points (its
index pairs are exactly the maximal runs, in increasing order) with
`start`/`end` the timestamps of the run's first and last point; and on
flags `[F,F,T,T,F,T,F,F,T,T,T]` with timestamps `t0..t10` it returns
exactly `[{t2,t3},{t5,t5},{t8,t10}]`. -/
theorem C2_extract_maximal_runs (pts : List PointResult) :
    (∀ s e : ℕ, ((s, e) ∈ extractIdx pts ↔ IsMaxRun pts s e)) ∧
      extract_anomaly_intervals pts =
        (extractIdx pts).map (fun se => ⟨tsAt pts se.1, tsAt pts se.2⟩) ∧
      List.Pairwise (fun a b : ℕ × ℕ => a.1 < b.1) (extractIdx pts) ∧
      extract_anomaly_intervals exC2 =
        [⟨"t2", "t3"⟩, ⟨"t5", "t5"⟩, ⟨"t8", "t10"⟩] := by
  refine ⟨mem_extractIdx_iff_isMaxRun pts, rfl, ?_, ?_⟩
  · refine List.Pairwise.imp_of_mem ?_
      (pairwise_gap_extractAux pts.length pts (Nat.le_refl _))
    intro a b ha hb hab
    have hmem : (a.1, a.2) ∈ extractIdx pts := by
      rw [Prod.mk.eta]
      exact ha
    obtain ⟨h1, h2, h3, h4, h5⟩ :=
      isMaxRun_of_mem_extractAux pts.length pts (Nat.le_refl _) a.1 a.2 hmem
    omega
  · simp [extract_anomaly_intervals, extractIdx, extractAux, exC2, tsAt,
      List.takeWhile, List.dropWhile]

/-- Claim C10: the emitted intervals exactly cover the flagged points:
every flagged index lies (by index) in exactly one emitted interval, the
start and end timestamps of every interval belong to flagged points, the
intervals are pairwise disjoint, and any two consecutive intervals are
separated by at least one non-flagged point. -/
theorem C10_interval_invariants (pts : List PointResult) :
    (∀ j, flagIdx pts j = true →
        ∃! se : ℕ × ℕ, se ∈ extractIdx pts ∧ se.1 ≤ j ∧ j ≤ se.2) ∧
      (∀ se, se ∈ extractIdx pts →
        flagIdx pts se.1 = true ∧ flagIdx pts se.2 = true ∧
          (∃ p, p ∈ pts ∧ p.is_anomaly = true ∧ tsAt pts se.1 = p.timestamp) ∧
          (∃ p, p ∈ pts ∧ p.is_anomaly = true ∧ tsAt pts se.2 = p.timestamp)) ∧
      List.Pairwise (fun a b : ℕ × ℕ =>
        ∀ j, a.1 ≤ j → j ≤ a.2 → ¬ (b.1 ≤ j ∧ j ≤ b.2)) (extractIdx pts) ∧
      List.Chain' (fun a b : ℕ × ℕ =>
        a.2 + 1 < b.1 ∧ flagIdx pts (a.2 + 1) = false) (extractIdx pts) := by
  refine ⟨?_, ?_, ?_, ?_⟩
  · intro j hj
    rcases cover_of_flagIdx_extractAux pts.length pts (Nat.le_refl _) j hj with
      ⟨⟨s1, e1⟩, hmem, hc1, hc2⟩
    refine ⟨(s1, e1), ⟨hmem, hc1, hc2⟩, ?_⟩
    rintro ⟨s2, e2⟩ ⟨hmem2, hd1, hd2⟩
    have hrun1 := isMaxRun_of_mem_extractAux pts.length pts (Nat.le_refl _) s1 e1 hmem
    have hrun2 := isMaxRun_of_mem_extractAux pts.length pts (Nat.le_refl _) s2 e2 hmem2
    obtain ⟨hs, he⟩ := isMaxRun_eq_of_overlap pts s2 e2 s1 e1 j
      hrun2 hrun1 hd1 hd2 hc1 hc2
    simp [hs, he]
  · rintro ⟨s, e⟩ hmem
    obtain ⟨h1, h2, h3, h4, h5⟩ :=
      isMaxRun_of_mem_extractAux pts.length pts (Nat.le_refl _) s e hmem
    have hfs : flagIdx pts s = true := h3 s (Nat.le_refl _) h1
    have hfe : flagIdx pts e = true := h3 e h1 (Nat.le_refl _)
    exact ⟨hfs, hfe, flagged_point_at pts s hfs, flagged_point_at pts e hfe⟩
  · refine List.Pairwise.imp ?_
      (pairwise_gap_extractAux pts.length pts (Nat.le_refl _))
    intro a b hab j h1 h2 hcontra
    omega
  · have hpw2 : List.Pairwise (fun a b : ℕ × ℕ =>
        a.2 + 1 < b.1 ∧ flagIdx pts (a.2 + 1) = false) (extractIdx pts) := by
      refine List.Pairwise.imp_of_mem ?_
        (pairwise_gap_extractAux pts.length pts (Nat.le_refl _))
      intro a b ha hb hab
      have hmem : (a.1, a.2) ∈ extractIdx pts := by
        rw [Prod.mk.eta]
        exact ha
      obtain ⟨h1, h2, h3, h4, h5⟩ :=
        isMaxRun_of_mem_extractAux pts.length pts (Nat.le_refl _) a.1 a.2 hmem
      exact ⟨by omega, h5⟩
    exact hpw2.chain'

/-- Claim C4: aggregating an empty sequence of PointResults returns,
without raising and without dividing by zero, a verdict with
`is_segment_anomaly = false` and reason marker `"empty"`, with the ratio
and streak fields omitted. -/
theorem C4_empty_segment_summary (ratio_threshold : ℚ) (streak_threshold : ℤ) :
    segment_summary [] ratio_threshold streak_threshold =
      ⟨false, some "empty", none, none, ⟨ratio_threshold, streak_threshold⟩⟩ :=
  rfl

/-- Claim C1: for every non-empty sequence of PointResults and
caller-supplied thresholds, the segment verdict is exactly
`(ratio >= ratio_threshold) OR (max_consecutive_anomaly >= streak_threshold)`;
in particular a sequence whose ratio is below `ratio_threshold` but that
contains one run of flagged points of length at least `streak_threshold`
yields `is_segment_anomaly = true`, and vice versa. -/
theorem C1_or_semantics (pts : List PointResult) (rt : ℚ) (st : ℤ)
    (h : pts ≠ []) :
    (segment_summary pts rt st).is_segment_anomaly =
        (decide (rt ≤ anomalyRatio pts) ||
          decide (st ≤ (maxConsecutive pts : ℤ))) ∧
      (anomalyRatio pts < rt →
        (∃ (s k : ℕ), st ≤ (k : ℤ) ∧
          ∀ j, s ≤ j → j < s + k → flagIdx pts j = true) →
        (segment_summary pts rt st).is_segment_anomaly = true) ∧
      (rt ≤ anomalyRatio pts → (maxConsecutive pts : ℤ) < st →
        (segment_summary pts rt st).is_segment_anomaly = true) := by
  rw [segment_summary_of_ne_nil pts rt st h]
  refine ⟨rfl, ?_, ?_⟩
  · rintro _ ⟨s, k, hk, hrun⟩
    have h1 : k ≤ maxConsecutive pts := le_maxConsecutive_of_run pts s k hrun
    have h2 : st ≤ (maxConsecutive pts : ℤ) :=
      le_trans hk (by exact_mod_cast h1)
    simp [h2]
  · intro h1 _
    simp [h1]

/-- A four-point sequence with a single flagged point at its head, used to
instantiate the segment-aggregator theorems. -/
def exSeg1 : List PointResult :=
  [⟨"t0", .finite 1, .finite 0, true⟩, ⟨"t1", .finite 2, .finite 0, false⟩,
   ⟨"t2", .finite 3, .finite 0, false⟩, ⟨"t3", .finite 4, .finite 0, false⟩]

/-- An all-flagged three-point sequence, used to instantiate the
segment-aggregator theorems. -/
def exSeg2 : List PointResult :=
  [⟨"t0", .finite 9, .finite 0, true⟩, ⟨"t1", .finite 9, .finite 0, true⟩,
   ⟨"t2", .finite 9, .finite 0, true⟩]

theorem C1_or_semantics_witness :
    (segment_summary exSeg1 (1/2) 1).is_segment_anomaly = true := by
  have hc : countFlagged exSeg1 = 1 := by decide
  refine (C1_or_semantics exSeg1 (1/2) 1 (by simp [exSeg1])).2.1 ?_ ⟨0, 1, by norm_num, ?_⟩
  · rw [anomalyRatio, hc]
    norm_num [exSeg1]
  · intro j h1 h2
    have hj : j = 0 := by omega
    subst hj
    rfl

/-- Claim C3: for every non-empty sequence of PointResults, the
aggregator's `anomaly_ratio` is exactly `(#flagged) / total` and
`max_consecutive_anomaly` is the result of the single in-order scan that
resets the running counter on every non-flagged point; an all-flagged
sequence of length N has ratio 1 and streak N. -/
theorem C3_exact_ratio_and_scan (pts : List PointResult) (rt : ℚ) (st : ℤ)
    (h : pts ≠ []) :
    (segment_summary pts rt st).anomaly_ratio =
        some ((countFlagged pts : ℚ) / (pts.length : ℚ)) ∧
      (segment_summary pts rt st).max_consecutive_anomaly =
        some (maxStreakGo (pts.map (fun p => p.is_anomaly)) 0 0) ∧
      ((∀ p ∈ pts, p.is_anomaly = true) →
        (segment_summary pts rt st).anomaly_ratio = some 1 ∧
          (segment_summary pts rt st).max_consecutive_anomaly =
            some pts.length) := by
  rw [segment_summary_of_ne_nil pts rt st h]
  have hlen : 0 < pts.length := List.length_pos.mpr h
  refine ⟨rfl, rfl, ?_⟩
  intro hall
  have hcount : countFlagged pts = pts.length := by
    rw [countFlagged]
    rw [show pts.length = (pts.map (fun p => p.is_anomaly)).length by simp]
    refine List.count_eq_length.mpr ?_
    intro b hb
    rcases List.mem_map.mp hb with ⟨p, hp, rfl⟩
    exact (hall p hp).symm
  constructor
  · rw [anomalyRatio, hcount]
    rw [div_self (ne_of_gt (by exact_mod_cast hlen))]
  · have hle : maxConsecutive pts ≤ pts.length := by
      have := maxStreakGo_le (pts.map (fun p => p.is_anomaly)) 0 0
      simpa [maxConsecutive] using this
    have hge : pts.length ≤ maxConsecutive pts := by
      refine le_maxConsecutive_of_run pts 0 pts.length ?_
      intro j _ hj
      have hjlt : j < pts.length := by omega
      have hj2 : pts[j]? = some pts[j] := List.getElem?_eq_getElem hjlt
      simp [flagIdx, hj2]
      exact hall _ (List.getElem_mem hjlt)
    have : maxConsecutive pts = pts.length := Nat.le_antisymm hle hge
    exact congrArg some this

theorem C3_exact_ratio_and_scan_witness :
    (segment_summary exSeg2 (1/5) 20).anomaly_ratio = some 1 ∧
      (segment_summary exSeg2 (1/5) 20).max_consecutive_anomaly = some 3 := by
  have h := (C3_exact_ratio_and_scan exSeg2 (1/5) 20 (by simp [exSeg2])).2.2 (by decide)
  simpa [exSeg2] using h

/-- Claim C8: for every non-empty sequence of PointResults the verdict
satisfies `0 ≤ anomaly_ratio ≤ 1` and `0 ≤ max_consecutive_anomaly ≤ total`
(the streak is a `ℕ`, so its non-negativity is carried by the type), and
for fixed total the ratio is monotonically non-decreasing in the count of
flagged points. -/
theorem C8_verdict_invariants (pts : List PointResult) (rt : ℚ) (st : ℤ)
    (h : pts ≠ []) :
    (segment_summary pts rt st).anomaly_ratio = some (anomalyRatio pts) ∧
      (segment_summary pts rt st).max_consecutive_anomaly =
        some (maxConsecutive pts) ∧
      0 ≤ anomalyRatio pts ∧ anomalyRatio pts ≤ 1 ∧
      maxConsecutive pts ≤ pts.length ∧
      ∀ pts2 : List PointResult, pts2.length = pts.length →
        countFlagged pts ≤ countFlagged pts2 →
        anomalyRatio pts ≤ anomalyRatio pts2 := by
  have hlen : 0 < pts.length := List.length_pos.mpr h
  have hlenQ : (0 : ℚ) < (pts.length : ℚ) := by exact_mod_cast hlen
  rw [segment_summary_of_ne_nil pts rt st h]
  refine ⟨rfl, rfl, ?_, ?_, ?_, ?_⟩
  · exact div_nonneg (Nat.cast_nonneg _) (Nat.cast_nonneg _)
  · rw [anomalyRatio, div_le_one hlenQ]
    exact_mod_cast countFlagged_le_length pts
  · have := maxStreakGo_le (pts.map (fun p => p.is_anomaly)) 0 0
    simpa [maxConsecutive] using this
  · intro pts2 hlen2 hcount
    rw [anomalyRatio, anomalyRatio, hlen2]
    have hcQ : (countFlagged pts : ℚ) ≤ (countFlagged pts2 : ℚ) := by
      exact_mod_cast hcount
    gcongr


theorem C8_verdict_invariants_witness :
    0 ≤ anomalyRatio exSeg1 ∧ anomalyRatio exSeg1 ≤ 1 ∧
      maxConsecutive exSeg1 ≤ exSeg1.length := by
  have h := C8_verdict_invariants exSeg1 (1/5) 20 (by simp [exSeg1])
  exact ⟨h.2.2.1, h.2.2.2.1, h.2.2.2.2.1⟩

/-! ### The detect handler: error routing and interval gating -/

theorem perm_any_eq {l1 l2 : List DataPoint} (h : l1.Perm l2)
    (f : DataPoint → Bool) : l1.any f = l2.any f := by
  rw [List.any_eq, List.any_eq, decide_eq_decide]
  constructor
  · rintro ⟨x, hx, hfx⟩
    exact ⟨x, h.mem_iff.mp hx, hfx⟩
  · rintro ⟨x, hx, hfx⟩
    exact ⟨x, h.mem_iff.mpr hx, hfx⟩

/-- Claim C5: for every detection request that succeeds, when the segment
verdict is non-anomalous the response's anomalies list is empty (the
extractor's output is not used), and intervals appear only when
`is_segment_anomaly` is true.  The scorer is universally quantified. -/
theorem C5_intervals_only_when_anomalous
    (score : List DataPoint → ℚ → ℤ → List PointResult)
    (req : DetectRequest) (resp : DetectResponse)
    (h : detect score req = .ok resp) :
    ((segment_summary
          (score (sortByTimestamp req.data) req.contamination req.random_state)
          req.ratio_threshold req.streak_threshold).is_segment_anomaly = false →
        resp.anomalies = []) ∧
      (resp.anomalies ≠ [] →
        (segment_summary
            (score (sortByTimestamp req.data) req.contamination req.random_state)
            req.ratio_threshold req.streak_threshold).is_segment_anomaly = true) := by
  rw [detect] at h
  cases hemp : req.data.isEmpty
  · rw [hemp] at h
    simp only [Bool.false_eq_true, if_false] at h
    cases hiso : isoforestError ((sortByTimestamp req.data).map (fun p => p.value))
        req.contamination
    · rw [hiso] at h
      simp only [] at h
      have hresp : DetectResponse.mk req.metadata
          ((if (segment_summary
              (score (sortByTimestamp req.data) req.contamination req.random_state)
              req.ratio_threshold req.streak_threshold).is_segment_anomaly then
            extract_anomaly_intervals
              (score (sortByTimestamp req.data) req.contamination req.random_state)
          else []).map (fun iv => ⟨iv.start, iv.«end»⟩)) = resp := by
        exact Except.ok.inj h
      subst hresp
      cases hseg : (segment_summary
          (score (sortByTimestamp req.data) req.contamination req.random_state)
          req.ratio_threshold req.streak_threshold).is_segment_anomaly
      · refine ⟨fun _ => ?_, fun hne => ?_⟩
        · simp [hseg]
        · exfalso
          refine hne ?_
          simp [hseg]
      · exact ⟨fun hfalse => by simp [hseg] at hfalse, fun _ => rfl⟩
    · rw [hiso] at h
      simp at h
  · rw [hemp] at h
    simp at h

/-- The scorer used to instantiate the detect-level theorems: it ignores
its arguments and reports one unflagged point. -/
def exScore : List DataPoint → ℚ → ℤ → List PointResult :=
  fun _ _ _ => [⟨"t0", PyFloat.finite 1, PyFloat.finite 0, false⟩]

/-- A well-formed one-point detection request with default parameters. -/
def exReq : DetectRequest :=
  ⟨none, [⟨"t0", PyFloat.finite 1⟩], 1/20, 42, 1/5, 20⟩

theorem detect_exReq : detect exScore exReq = .ok ⟨none, []⟩ := by
  have hiso : isoforestError ((sortByTimestamp exReq.data).map (fun p => p.value))
      exReq.contamination = none := by
    rw [isoforestError]
    rw [if_neg (by push_neg; refine ⟨by norm_num [exReq], by norm_num [exReq]⟩)]
    rw [if_neg (by simp [sortByTimestamp, exReq, PyFloat.isFinite])]
    rw [if_neg (by simp [sortByTimestamp, exReq])]
  have hseg : (segment_summary
      (exScore (sortByTimestamp exReq.data) exReq.contamination exReq.random_state)
      exReq.ratio_threshold exReq.streak_threshold).is_segment_anomaly = false := by
    rw [exScore]
    rw [segment_summary_of_ne_nil _ _ _ (by simp)]
    have h1 : anomalyRatio [(⟨"t0", PyFloat.finite 1, PyFloat.finite 0, false⟩ : PointResult)] = 0 := by
      norm_num [anomalyRatio, countFlagged]
    have h2 : maxConsecutive [(⟨"t0", PyFloat.finite 1, PyFloat.finite 0, false⟩ : PointResult)] = 0 := by
      rfl
    rw [show exReq.ratio_threshold = 1/5 from rfl, show exReq.streak_threshold = 20 from rfl]
    simp only [h1, h2]
    norm_num
  rw [detect]
  rw [if_neg (by simp [exReq])]
  rw [hiso]
  simp only [hseg, Bool.false_eq_true, if_false, List.map_nil]
  rfl

theorem C5_intervals_only_when_anomalous_witness :
    ((segment_summary
          (exScore (sortByTimestamp exReq.data) exReq.contamination exReq.random_state)
          exReq.ratio_threshold exReq.streak_threshold).is_segment_anomaly = false →
        (⟨none, []⟩ : DetectResponse).anomalies = []) ∧
      ((⟨none, []⟩ : DetectResponse).anomalies ≠ [] →
        (segment_summary
            (exScore (sortByTimestamp exReq.data) exReq.contamination exReq.random_state)
            exReq.ratio_threshold exReq.streak_threshold).is_segment_anomaly = true) :=
  C5_intervals_only_when_anomalous exScore exReq ⟨none, []⟩ detect_exReq

/-- Claim C6, counterexample: a request with non-empty data and
`contamination = 3/5 ∉ (0, 0.5]` is answered with HTTP 500 (the generic
server-side handler of `api.py`, lines 134-135), not with a 4xx client
error as the claim states. -/
theorem C6_counterexample :
    detect exScore ⟨none, [⟨"t0", PyFloat.finite 1⟩], 3/5, 42, 1/5, 20⟩ =
        .error ⟨500, "detection failed: " ++ "contamination must be in (0.0, 0.5]"⟩ ∧
      ∀ er, detect exScore ⟨none, [⟨"t0", PyFloat.finite 1⟩], 3/5, 42, 1/5, 20⟩ =
        .error er → ¬ er.status < 500 := by
  have h : detect exScore ⟨none, [⟨"t0", PyFloat.finite 1⟩], 3/5, 42, 1/5, 20⟩ =
      .error ⟨500, "detection failed: " ++ "contamination must be in (0.0, 0.5]"⟩ := by
    rw [detect]
    rw [if_neg (by simp)]
    rw [isoforestError]
    rw [if_pos (by push_neg; intro; norm_num)]
  refine ⟨h, ?_⟩
  intro er her
  rw [h] at her
  have her2 : (⟨500, "detection failed: " ++ "contamination must be in (0.0, 0.5]"⟩ :
      HttpError) = er := Except.error.inj her
  rw [← her2]
  simp

/-- Claim C6, amended: whenever the data is non-empty and either
`contamination` lies outside `(0, 0.5]` or some input value is non-finite,
the scorer's exception is surfaced as a server-side HTTP 500
(`"detection failed: ..."`), never as a client error. -/
theorem C6_invalid_input_is_server_error
    (score : List DataPoint → ℚ → ℤ → List PointResult)
    (req : DetectRequest) (h : req.data ≠ [])
    (hbad : ¬ (0 < req.contamination ∧ req.contamination ≤ 1/2) ∨
      req.data.any (fun d => ! d.value.isFinite) = true) :
    ∃ msg, detect score req = .error ⟨500, msg⟩ := by
  have hne : req.data.isEmpty = false := by
    cases hd : req.data
    · exact absurd hd h
    · rfl
  by_cases hc : 0 < req.contamination ∧ req.contamination ≤ 1/2
  · have hany : ((sortByTimestamp req.data).map (fun p => p.value)).any
        (fun v => ! v.isFinite) = true := by
      rcases hbad with hbad1 | hbad2
      · exact absurd hc hbad1
      · rw [List.any_eq_true]
        rw [List.any_eq_true] at hbad2
        rcases hbad2 with ⟨d, hd, hfd⟩
        refine ⟨d.value, ?_, hfd⟩
        refine List.mem_map.mpr ⟨d, ?_, rfl⟩
        rw [sortByTimestamp]
        exact ((List.mergeSort_perm req.data _).mem_iff).mpr hd
    refine ⟨"detection failed: " ++ "input contains NaN or infinity", ?_⟩
    rw [detect]
    rw [if_neg (by rw [hne]; simp)]
    rw [isoforestError]
    rw [if_neg (by push_neg; exact hc)]
    rw [if_pos hany]
  · refine ⟨"detection failed: " ++ "contamination must be in (0.0, 0.5]", ?_⟩
    rw [detect]
    rw [if_neg (by rw [hne]; simp)]
    rw [isoforestError]
    rw [if_pos hc]

theorem C6_invalid_input_is_server_error_witness :
    ∃ msg, detect exScore ⟨none, [⟨"t0", PyFloat.finite 1⟩], 3/5, 42, 1/5, 20⟩ =
      .error ⟨500, msg⟩ :=
  C6_invalid_input_is_server_error exScore
    ⟨none, [⟨"t0", PyFloat.finite 1⟩], 3/5, 42, 1/5, 20⟩
    (by simp) (Or.inl (by push_neg; intro; norm_num))

/-- Claim C7, counterexample: a detection request whose series has length
0 does not return an empty result; it is rejected with a 400 client error
because `pd.DataFrame([])` has no columns, so the column check of
`api.py` line 115 fails. -/
theorem C7_counterexample :
    detect exScore ⟨none, [], 1/20, 42, 1/5, 20⟩ =
      .error ⟨400, "data points must include timestamp and value"⟩ :=
  rfl

/-- Claim C7, amended: scoring a series of length 0 through the detect
endpoint is rejected with a 400 client error (the empty frame lacks the
required columns); no empty result sequence is returned. -/
theorem C7_empty_series_rejected
    (score : List DataPoint → ℚ → ℤ → List PointResult)
    (md : Option Metadata) (c : ℚ) (rs : ℤ) (rt : ℚ) (st : ℤ) :
    detect score ⟨md, [], c, rs, rt, st⟩ =
      .error ⟨400, "data points must include timestamp and value"⟩ :=
  rfl

end ZeroOps
